import Mathlib

set_option maxRecDepth 100000

/-!
Verification of the simetri job-aggregation pipeline core
(job_processor.py, storage.py, scheduler.py), shallowly embedded in Lean.

Conventions of the embedding:
* Python `dict` job records become the `Job` structure; an absent field is
  modelled as the empty string `""` (all the embedded code paths test fields
  with Python truthiness `if job.get(f):`, which identifies `None` and `""`).
* `datetime` values are modelled as `Nat` epoch seconds; `datetime.now()`
  becomes an explicit `now : Nat` argument, `isoformat` an explicit
  `fmt : Nat → String`, and `datetime.fromisoformat` an explicit
  `parse : String → Option Nat` (`none` models `ValueError`).
* Python string operations are modelled over ASCII: `str.lower` is
  `Char.toLower` (exact for ASCII), `str.split()` splits on ASCII whitespace.
* `hashlib.md5(...).hexdigest()` is implemented in full (RFC 1321) over the
  UTF-8 bytes of the input, so fingerprint equalities and inequalities are
  decided against the real hash function.
-/

/-! ### Python string primitives -/

/-- ASCII whitespace, the characters Python `str.split()` / `str.strip()`
split and strip on (restricted to ASCII). -/
def pyIsSpace (c : Char) : Bool :=
  c = ' ' || c = '\t' || c = '\n' || c = '\r' || c = '\x0b' || c = '\x0c'

/-- Python `str.split()` with no argument: split on runs of whitespace,
discarding empty pieces.  `acc` is the current in-progress word, reversed. -/
def pySplitAux : List Char → List Char → List (List Char)
  | [], acc => if acc = [] then [] else [acc.reverse]
  | c :: rest, acc =>
    if pyIsSpace c then
      if acc = [] then pySplitAux rest []
      else acc.reverse :: pySplitAux rest []
    else pySplitAux rest (c :: acc)

/-- Python `str.split()` on a string. -/
def pySplit (s : String) : List String :=
  (pySplitAux s.data []).map String.mk

/-- Python `str.strip()`: remove leading and trailing whitespace. -/
def pyStripChars (l : List Char) : List Char :=
  ((l.dropWhile pyIsSpace).reverse.dropWhile pyIsSpace).reverse

/-- Python `str.strip()` on a string. -/
def pyStrip (s : String) : String :=
  String.mk (pyStripChars s.data)

/-- Python `str.lower()` (ASCII letters). -/
def pyLower (s : String) : String :=
  String.mk (s.data.map Char.toLower)

/-- Python `str.replace(pat, rep)`: replace every (leftmost, non-overlapping)
occurrence of `pat` by `rep`, on character lists.  The recursion is driven by
a fuel argument so that the definition is structural (and hence reduces in
the kernel); each step consumes at least one character of the scanned list,
so fuel equal to the list length is always sufficient. -/
def replaceFuel (pat rep : List Char) : Nat → List Char → List Char
  | 0, l => l
  | _ + 1, [] => []
  | fuel + 1, c :: rest =>
    if pat ≠ [] ∧ pat.isPrefixOf (c :: rest) then
      rep ++ replaceFuel pat rep fuel ((c :: rest).drop pat.length)
    else
      c :: replaceFuel pat rep fuel rest

/-- Python `str.replace` on strings. -/
def pyReplace (s pat rep : String) : String :=
  String.mk (replaceFuel pat.data rep.data s.data.length s.data)

/-- Substring occurrence test on character lists. -/
def isInfixB (pat : List Char) : List Char → Bool
  | [] => pat.isEmpty
  | c :: rest => pat.isPrefixOf (c :: rest) || isInfixB pat rest

/-- Python `pat in s` (substring test). -/
def pyContains (s pat : String) : Bool :=
  isInfixB pat.data s.data

/-- Python `' '.join(words)` on character lists. -/
def joinWordsCh : List (List Char) → List Char
  | [] => []
  | [w] => w
  | w :: rest => w ++ ' ' :: joinWordsCh rest

/-! ### MD5 (RFC 1321) -/

/-- `2^32`, the word modulus of MD5. -/
def M32 : Nat := 4294967296

/-- Addition modulo `2^32`. -/
def add32 (a b : Nat) : Nat := (a + b) % M32

/-- Left rotation of a 32-bit word by `s` bits. -/
def rotl32 (x s : Nat) : Nat := (x <<< s) % M32 ||| x >>> (32 - s)

/-- MD5 round function F. -/
def md5F (b c d : Nat) : Nat := (b &&& c) ||| ((4294967295 ^^^ b) &&& d)

/-- MD5 round function G. -/
def md5G (b c d : Nat) : Nat := (b &&& d) ||| (c &&& (4294967295 ^^^ d))

/-- MD5 round function H. -/
def md5H (b c d : Nat) : Nat := b ^^^ c ^^^ d

/-- MD5 round function I. -/
def md5I (b c d : Nat) : Nat := c ^^^ (b ||| (4294967295 ^^^ d))

/-- The MD5 sine-derived constant table `T[i] = ⌊2^32·|sin(i+1)|⌋`. -/
def md5T : List Nat :=
  [3614090360, 3905402710, 606105819, 3250441966, 4118548399, 1200080426,
   2821735955, 4249261313, 1770035416, 2336552879, 4294925233, 2304563134,
   1804603682, 4254626195, 2792965006, 1236535329, 4129170786, 3225465664,
   643717713, 3921069994, 3593408605, 38016083, 3634488961, 3889429448,
   568446438, 3275163606, 4107603335, 1163531501, 2850285829, 4243563512,
   1735328473, 2368359562, 4294588738, 2272392833, 1839030562, 4259657740,
   2763975236, 1272893353, 4139469664, 3200236656, 681279174, 3936430074,
   3572445317, 76029189, 3654602809, 3873151461, 530742520, 3299628645,
   4096336452, 1126891415, 2878612391, 4237533241, 1700485571, 2399980690,
   4293915773, 2240044497, 1873313359, 4264355552, 2734768916, 1309151649,
   4149444226, 3174756917, 718787259, 3951481745]

/-- The MD5 per-round shift amounts. -/
def md5S : List Nat :=
  [7, 12, 17, 22, 7, 12, 17, 22, 7, 12, 17, 22, 7, 12, 17, 22,
   5, 9, 14, 20, 5, 9, 14, 20, 5, 9, 14, 20, 5, 9, 14, 20,
   4, 11, 16, 23, 4, 11, 16, 23, 4, 11, 16, 23, 4, 11, 16, 23,
   6, 10, 15, 21, 6, 10, 15, 21, 6, 10, 15, 21, 6, 10, 15, 21]

/-- Message-word index used at MD5 operation `i`. -/
def md5GIdx (i : Nat) : Nat :=
  if i < 16 then i
  else if i < 32 then (5 * i + 1) % 16
  else if i < 48 then (3 * i + 5) % 16
  else (7 * i) % 16

/-- Round function selected at MD5 operation `i`. -/
def md5FVal (i b c d : Nat) : Nat :=
  if i < 16 then md5F b c d
  else if i < 32 then md5G b c d
  else if i < 48 then md5H b c d
  else md5I b c d

/-- One of the 64 MD5 operations, rotating the state `(a, b, c, d)`. -/
def md5Op (m : Nat → Nat) (st : Nat × Nat × Nat × Nat) (i : Nat) :
    Nat × Nat × Nat × Nat :=
  let (a, b, c, d) := st
  let f := add32 (add32 (add32 a (md5FVal i b c d)) (md5T.getD i 0))
             (m (md5GIdx i))
  (d, add32 b (rotl32 f (md5S.getD i 0)), b, c)

/-- Process one 64-byte chunk (given as a byte list), updating the state. -/
def md5Chunk (st : Nat × Nat × Nat × Nat) (chunk : List Nat) :
    Nat × Nat × Nat × Nat :=
  let m : Nat → Nat := fun j =>
    chunk.getD (4 * j) 0 + 256 * chunk.getD (4 * j + 1) 0 +
      65536 * chunk.getD (4 * j + 2) 0 + 16777216 * chunk.getD (4 * j + 3) 0
  let r := (List.range 64).foldl (md5Op m) st
  (add32 st.1 r.1, add32 st.2.1 r.2.1, add32 st.2.2.1 r.2.2.1,
    add32 st.2.2.2 r.2.2.2)

/-- Little-endian 8-byte encoding of a value below `2^64`. -/
def le8 (n : Nat) : List Nat :=
  [n % 256, n / 256 % 256, n / 65536 % 256, n / 16777216 % 256,
   n / 4294967296 % 256, n / 1099511627776 % 256,
   n / 281474976710656 % 256, n / 72057594037927936 % 256]

/-- Little-endian 4-byte encoding of a 32-bit word. -/
def le4 (n : Nat) : List Nat :=
  [n % 256, n / 256 % 256, n / 65536 % 256, n / 16777216 % 256]

/-- MD5 padding: append `0x80`, zero bytes to 56 mod 64, then the bit length
as a little-endian 64-bit value. -/
def md5Pad (msg : List Nat) : List Nat :=
  let len := msg.length
  msg ++ [128] ++ List.replicate ((119 - len % 64) % 64) 0 ++
    le8 (8 * len % 18446744073709551616)

/-- Split a byte list into consecutive 64-byte chunks (the list handed to
this function, an MD5-padded message, always has length a multiple of 64). -/
def chunks64 (l : List Nat) : List (List Nat) :=
  (List.range ((l.length + 63) / 64)).map (fun i => (l.drop (64 * i)).take 64)

/-- The 16-byte MD5 digest of a byte list. -/
def md5Bytes (msg : List Nat) : List Nat :=
  let r := (chunks64 (md5Pad msg)).foldl md5Chunk
    (1732584193, 4023233417, 2562383102, 271733878)
  le4 r.1 ++ le4 r.2.1 ++ le4 r.2.2.1 ++ le4 r.2.2.2

/-- Lowercase hex digit of a value below 16. -/
def hexDigit (n : Nat) : Char :=
  if n < 10 then Char.ofNat (48 + n) else Char.ofNat (87 + n)

/-- Two-character lowercase hex rendering of a byte. -/
def byteToHex (b : Nat) : List Char := [hexDigit (b / 16), hexDigit (b % 16)]

/-- Lowercase hex string of a byte list. -/
def hexOfBytes (bs : List Nat) : List Char :=
  bs.foldr (fun b acc => byteToHex b ++ acc) []

/-- `hashlib.md5(msg).hexdigest()`. -/
def md5Hex (msg : List Nat) : String := String.mk (hexOfBytes (md5Bytes msg))

/-- UTF-8 encoding of a single code point. -/
def utf8Char (n : Nat) : List Nat :=
  if n < 128 then [n]
  else if n < 2048 then [192 + n / 64, 128 + n % 64]
  else if n < 65536 then [224 + n / 4096, 128 + n / 64 % 64, 128 + n % 64]
  else [240 + n / 262144, 128 + n / 4096 % 64, 128 + n / 64 % 64, 128 + n % 64]

/-- `str.encode('utf-8')`: the UTF-8 bytes of a string. -/
def utf8Encode (s : String) : List Nat :=
  (s.data.map (fun c => utf8Char c.toNat)).foldr (· ++ ·) []

/-- RFC 1321 test vector: the digest of the empty message. -/
theorem md5_test_vector_empty :
    md5Hex (utf8Encode "") = "d41d8cd98f00b204e9800998ecf8427e" := by
  decide

/-- RFC 1321 test vector: the digest of `"abc"`. -/
theorem md5_test_vector_abc :
    md5Hex (utf8Encode "abc") = "900150983cd24fb0d6963f7d28e17f72" := by
  decide

/-! ### The record model (`JobRecord` of the spec, a Python dict in the code)

An absent dict key is modelled as `""` — every embedded code path reads
fields through Python truthiness (`if job.get(f):`), which identifies
`None`, a missing key and `""`. -/

structure Job where
  title : String := ""
  description : String := ""
  location : String := ""
  state : String := ""
  category : String := ""
  qualification : String := ""
  last_date : String := ""
  apply_link : String := ""
  source : String := ""
  scraped_at : String := ""
  processed_at : String := ""
  job_hash : String := ""
  posted_at : String := ""
deriving DecidableEq, Repr, Inhabited

/-- Python `job.get(field, default)` under the `"" = absent` convention. -/
def pyDefault (v d : String) : String := if v = "" then d else v

/-! ### JobProcessor (src/job_processor.py) -/

/-- The bounded collapse loop of `clean_text`
(`while '  ' in text: text = text.replace('  ', ' ')`), driven by fuel;
every iteration that fires strictly shortens the list, so fuel equal to the
initial length is always sufficient. -/
def collapseCh : Nat → List Char → List Char
  | 0, t => t
  | fuel + 1, t =>
    if isInfixB [' ', ' '] t then
      collapseCh fuel (replaceFuel [' ', ' '] [' '] t.length t)
    else t

/-- `JobProcessor.clean_text` (job_processor.py:125-140): whitespace-split and
rejoin, replace `\n`, `\r`, `\t` by spaces, collapse double spaces, strip. -/
def clean_text (text : String) : String :=
  if text = "" then ""
  else
    let t1 := joinWordsCh (pySplitAux text.data [])
    let t2 := replaceFuel ['\n'] [' '] t1.length t1
    let t3 := replaceFuel ['\r'] [' '] t2.length t2
    let t4 := replaceFuel ['\t'] [' '] t3.length t3
    String.mk (pyStripChars (collapseCh (t4.length + 1) t4))

/-- `JobProcessor.generate_job_hash` (job_processor.py:142-147):
`md5((title + location + source).lower().strip())` as a hex digest. -/
def generate_job_hash (job : Job) : String :=
  md5Hex (utf8Encode (pyStrip (pyLower (job.title ++ job.location ++ job.source))))

/-- `JobProcessor.clean_and_validate_job` (job_processor.py:75-123).
`none` models Python `None` (the record is dropped).  The `if not job:`
guard is subsumed by the required-field check (an empty dict has no title);
the `state`/`apply_link` defaults (`None` and `''`) are no-ops under the
`"" = absent` convention; cleaning a field unconditionally agrees with the
`if job.get(field):` guard because `clean_text "" = ""`. -/
def clean_and_validate_job (fmt : Nat → String) (now : Nat) (job : Job) :
    Option Job :=
  if job.title = "" ∨ job.source = "" then none
  else
    let j1 : Job := { job with
      title := clean_text job.title,
      description := clean_text job.description,
      location := clean_text job.location,
      qualification := clean_text job.qualification,
      last_date := clean_text job.last_date }
    let j2 : Job := { j1 with
      description := pyDefault j1.description "Job details not available",
      location := pyDefault j1.location "India",
      category := pyDefault j1.category "government",
      qualification := pyDefault j1.qualification "As per notification",
      last_date := pyDefault j1.last_date "Check notification",
      scraped_at := pyDefault j1.scraped_at (fmt now) }
    let j3 : Job :=
      if j2.category ≠ "government" ∧ j2.category ≠ "private" then
        { j2 with category := "government" }
      else j2
    let j4 : Job := { j3 with
      title := String.mk (j3.title.data.take 200),
      description := String.mk (j3.description.data.take 1000),
      location := String.mk (j3.location.data.take 100),
      qualification := String.mk (j3.qualification.data.take 200),
      last_date := String.mk (j3.last_date.data.take 100) }
    some { j4 with processed_at := fmt now }

/-- The per-record loop of `JobProcessor.process_jobs`
(job_processor.py:41-64).  `existing_hashes` is the mutable hash set (a list
membership models Python set membership); an accepted record gets its hash
stored under `job_hash` and added to `existing_hashes`. -/
def dedupLoop (fmt : Nat → String) (now : Nat) (posted_hashes : List String) :
    List String → List Job → List Job
  | _, [] => []
  | existing_hashes, job :: rest =>
    match clean_and_validate_job fmt now job with
    | none => dedupLoop fmt now posted_hashes existing_hashes rest
    | some processed =>
      let h := generate_job_hash processed
      if h ∈ existing_hashes ∨ h ∈ posted_hashes then
        dedupLoop fmt now posted_hashes existing_hashes rest
      else
        { processed with job_hash := h } ::
          dedupLoop fmt now posted_hashes (h :: existing_hashes) rest

/-- `JobProcessor.process_jobs` (job_processor.py:22-73).  Returns the new
persisted known-set (saved only when some record was accepted) and the list
of newly accepted records. -/
def process_jobs (fmt : Nat → String) (now : Nat)
    (existing_jobs posted_jobs scraped_jobs : List Job) :
    List Job × List Job :=
  if scraped_jobs = [] then (existing_jobs, [])
  else
    let existing_hashes := existing_jobs.map generate_job_hash
    let posted_hashes := posted_jobs.map generate_job_hash
    let new_jobs := dedupLoop fmt now posted_hashes existing_hashes scraped_jobs
    (if new_jobs = [] then existing_jobs else existing_jobs ++ new_jobs,
      new_jobs)

/-- The backlog filter of `JobProcessor.get_jobs_for_posting`
(job_processor.py:182-189): drop every known record whose `job_hash` is the
(truthy) `job_hash` of some posted record. -/
def undelivered_jobs (jobs posted_jobs : List Job) : List Job :=
  let posted_hashes := (posted_jobs.map (·.job_hash)).filter (fun h => h != "")
  jobs.filter (fun j => !posted_hashes.contains j.job_hash)

/-- Python's string `<=`: code-point lexicographic order on the character
lists. -/
def charListLe : List Char → List Char → Bool
  | [], _ => true
  | _ :: _, [] => false
  | a :: as, b :: bs =>
    if a.toNat < b.toNat then true
    else if b.toNat < a.toNat then false
    else charListLe as bs

/-- The descending sort key of `get_jobs_for_posting`: record `a` sorts
before record `b` when `b.scraped_at <= a.scraped_at` in Python string
order (`sort(key=..., reverse=True)`). -/
def jobMoreRecent (a b : Job) : Prop :=
  charListLe b.scraped_at.data a.scraped_at.data = true

instance (a b : Job) : Decidable (jobMoreRecent a b) :=
  inferInstanceAs (Decidable (_ = true))

/-- In the lexicographic order, the head of the smaller list is at most the
head of the larger one. -/
theorem charListLe_head_le (a b : Char) (as bs : List Char)
    (h : charListLe (a :: as) (b :: bs) = true) : a.toNat ≤ b.toNat := by
  simp only [charListLe] at h
  by_cases h1 : a.toNat < b.toNat
  · omega
  · by_cases h2 : b.toNat < a.toNat
    · rw [if_neg h1, if_pos h2] at h
      cases h
    · omega

/-- The lexicographic order is total. -/
theorem charListLe_total :
    ∀ x y : List Char, charListLe x y = true ∨ charListLe y x = true := by
  intro x
  induction x with
  | nil =>
    intro y
    left
    rfl
  | cons a as ih =>
    intro y
    cases y with
    | nil =>
      right
      rfl
    | cons b bs =>
      by_cases h1 : a.toNat < b.toNat
      · left
        simp [charListLe, h1]
      · by_cases h2 : b.toNat < a.toNat
        · right
          simp [charListLe, h2]
        · rcases ih bs with h | h
          · left
            simp [charListLe, h1, h2, h]
          · right
            simp [charListLe, h1, h2, h]

/-- The lexicographic order is transitive. -/
theorem charListLe_trans :
    ∀ x y z : List Char, charListLe x y = true → charListLe y z = true →
      charListLe x z = true := by
  intro x
  induction x with
  | nil =>
    intro y z _ _
    rfl
  | cons a as ih =>
    intro y z hxy hyz
    cases y with
    | nil => simp [charListLe] at hxy
    | cons b bs =>
      cases z with
      | nil => simp [charListLe] at hyz
      | cons c cs =>
        have hab := charListLe_head_le a b as bs hxy
        have hbc := charListLe_head_le b c bs cs hyz
        by_cases hac : a.toNat < c.toNat
        · simp [charListLe, hac]
        · have hacn : a.toNat = c.toNat := by omega
          have h1 : ¬a.toNat < b.toNat := by omega
          have h2 : ¬b.toNat < a.toNat := by omega
          have h3 : ¬b.toNat < c.toNat := by omega
          have h4 : ¬c.toNat < b.toNat := by omega
          simp only [charListLe, if_neg h1, if_neg h2] at hxy
          simp only [charListLe, if_neg h3, if_neg h4] at hyz
          simp only [charListLe, if_neg hac,
            if_neg (by omega : ¬c.toNat < a.toNat)]
          exact ih bs cs hxy hyz

instance : IsTotal Job jobMoreRecent :=
  ⟨fun a b => charListLe_total b.scraped_at.data a.scraped_at.data⟩

instance : IsTrans Job jobMoreRecent :=
  ⟨fun a b c hab hbc =>
    charListLe_trans c.scraped_at.data b.scraped_at.data a.scraped_at.data
      hbc hab⟩

/-- `JobProcessor.get_jobs_for_posting` (job_processor.py:177-199): filter the
backlog, stable-sort by `scraped_at` descending, apply the (truthy) limit.
Python's `list.sort` is a stable sort; it is modelled by the (equally
stable) insertion sort, which produces the same list for any stable sort
with the same key. -/
def get_jobs_for_posting (limit : Nat) (jobs posted_jobs : List Job) :
    List Job :=
  let sorted := (undelivered_jobs jobs posted_jobs).insertionSort
    jobMoreRecent
  if limit ≠ 0 then sorted.take limit else sorted

/-- The retention comprehension of `JobProcessor.mark_jobs_as_posted`
(job_processor.py:216-220).  `none` models the `ValueError` that
`datetime.fromisoformat` raises on an unparsable `posted_at`, aborting the
whole comprehension. -/
def markFilter (parse : String → Option Nat) (fmt : Nat → String)
    (now cutoff : Nat) : List Job → Option (List Job)
  | [] => some []
  | j :: rest =>
    match parse (pyDefault j.posted_at (fmt now)) with
    | none => none
    | some t =>
      match markFilter parse fmt now cutoff rest with
      | none => none
      | some r => some (if cutoff < t then j :: r else r)

/-- `JobProcessor.mark_jobs_as_posted` (job_processor.py:201-223): stamp the
batch with `posted_at = now`, append it to the posted list, and keep only
entries posted within the last 30 days (2592000 seconds).  `none` models a
`ValueError` escaping the method, in which case nothing is saved. -/
def mark_jobs_as_posted (parse : String → Option Nat) (fmt : Nat → String)
    (now : Nat) (posted_jobs jobs : List Job) : Option (List Job) :=
  if jobs = [] then some posted_jobs
  else
    let stamped := jobs.map (fun j => { j with posted_at := fmt now })
    markFilter parse fmt now (now - 2592000) (posted_jobs ++ stamped)

/-- `JobProcessor.cleanup_old_data` (job_processor.py:225-246): keep a known
record iff its `scraped_at` is truthy and either parses to a time strictly
after the cutoff or fails to parse; the pruned list is saved only when it
actually shrank (the resulting store state is the same either way). -/
def cleanup_old_data (parse : String → Option Nat) (now days : Nat)
    (jobs : List Job) : List Job :=
  let cutoff := now - days * 86400
  let recent := jobs.filter (fun j =>
    if j.scraped_at = "" then false
    else
      match parse j.scraped_at with
      | some t => decide (cutoff < t)
      | none => true)
  if recent.length < jobs.length then recent else jobs

/-! ### StorageManager (src/storage.py)

A file is `Option String` (`none` = missing); `parseJson` models
`json.load`, with `none` for undecodable content. -/

/-- `StorageManager.load_existing_jobs` (storage.py:24-40): a missing file or
a decode failure degrades to the empty list; the function is total, so no
error escapes the store boundary. -/
def load_existing_jobs (parseJson : String → Option (List Job)) :
    Option String → List Job
  | none => []
  | some content =>
    match parseJson content with
    | none => []
    | some jobs => jobs

/-- `StorageManager.load_posted_jobs` (storage.py:51-67): identical failure
semantics for the delivered-set file. -/
def load_posted_jobs (parseJson : String → Option (List Job)) :
    Option String → List Job
  | none => []
  | some content =>
    match parseJson content with
    | none => []
    | some jobs => jobs

/-! ### JobScheduler (src/scheduler.py) -/

/-- `JobScheduler.post_jobs` (scheduler.py:157-194).  `tg` and `blog` are the
success reports of the two channels for this batch.  Returns the new posted
list and the delivery log: the batch as handed to the channels, paired with
whether at least one channel succeeded.  A `ValueError` raised inside
`mark_jobs_as_posted` is swallowed by the surrounding `except`, leaving the
posted file unchanged (but the batch was already published). -/
def post_jobs (parse : String → Option Nat) (fmt : Nat → String) (now : Nat)
    (tg blog : Bool) (posted_jobs jobs : List Job) :
    List Job × List (List Job × Bool) :=
  if jobs = [] then (posted_jobs, [])
  else if tg || blog then
    match mark_jobs_as_posted parse fmt now posted_jobs jobs with
    | some p => (p, [(jobs, true)])
    | none => (posted_jobs, [(jobs, true)])
  else (posted_jobs, [(jobs, false)])

/-- The persisted pipeline state: the known-set file, the delivered-set file,
and the queue of batches captured by scheduled delayed posting tasks. -/
structure PipeState where
  known : List Job := []
  posted : List Job := []
  pending : List (List Job) := []
deriving DecidableEq, Repr, Inhabited

/-- One orchestrator action: a scraping cycle (`run_scraping_job`, with the
raw union of the scrapers' output), a periodic posting pass
(`run_posting_job`, with the channel outcomes and the configured limit), the
firing of a scheduled delayed posting task (`run_posting_job_for_jobs`), or
the daily cleanup (`run_cleanup_job`). -/
inductive Ev where
  | scrape (raw : List Job) (now : Nat)
  | post (tg blog : Bool) (limit : Nat) (now : Nat)
  | delayed (tg blog : Bool) (now : Nat)
  | sweep (days now : Nat)
deriving DecidableEq, Repr

/-- One orchestrator step (scheduler.py:88-207), returning the new state and
the delivery log of the step.
* `scrape` (scheduler.py:88-122): process the raw batch; if records were
  accepted, schedule a delayed posting task carrying that batch.
* `post` (scheduler.py:124-139): select the current backlog and, when it is
  non-empty, hand it to `post_jobs`.
* `delayed` (scheduler.py:141-155): hand the captured batch of the pending
  task to `post_jobs` verbatim, then clear the delayed tasks.
* `sweep` (scheduler.py:196-207): prune the known-set. -/
def step (parse : String → Option Nat) (fmt : Nat → String) (st : PipeState) :
    Ev → PipeState × List (List Job × Bool)
  | .scrape raw now =>
    let r := process_jobs fmt now st.known st.posted raw
    ({ st with
        known := r.1
        pending := if r.2 = [] then st.pending else st.pending ++ [r.2] }, [])
  | .post tg blog limit now =>
    let jobs := get_jobs_for_posting limit st.known st.posted
    if jobs = [] then (st, [])
    else
      let r := post_jobs parse fmt now tg blog st.posted jobs
      ({ st with posted := r.1 }, r.2)
  | .delayed tg blog now =>
    match st.pending with
    | [] => (st, [])
    | batch :: _ =>
      if batch = [] then (st, [])
      else
        let r := post_jobs parse fmt now tg blog st.posted batch
        ({ st with
            posted := r.1
            pending := [] }, r.2)
  | .sweep days now =>
    ({ st with known := cleanup_old_data parse now days st.known }, [])

/-- Run a sequence of orchestrator actions, accumulating the delivery log. -/
def runTrace (parse : String → Option Nat) (fmt : Nat → String) :
    PipeState → List Ev → PipeState × List (List Job × Bool)
  | st, [] => (st, [])
  | st, e :: rest =>
    let r := step parse fmt st e
    let r2 := runTrace parse fmt r.1 rest
    (r2.1, r.2 ++ r2.2)

/-! ### Helper lemmas -/

/-- An MD5 hex digest is never the empty string. -/
theorem md5Hex_ne_empty (msg : List Nat) : md5Hex msg ≠ "" := by
  intro h
  have h2 : hexOfBytes (md5Bytes msg) = [] := congrArg String.data h
  simp [md5Bytes, le4, hexOfBytes, byteToHex] at h2

/-- A fingerprint is never the empty string (Python-truthy). -/
theorem generate_job_hash_ne_empty (j : Job) : generate_job_hash j ≠ "" :=
  md5Hex_ne_empty _

/-- The fingerprint ignores the `job_hash` field. -/
theorem hash_set_job_hash (j : Job) (h : String) :
    generate_job_hash { j with job_hash := h } = generate_job_hash j := rfl

/-- The fingerprint ignores the `posted_at` field. -/
theorem hash_set_posted_at (j : Job) (s : String) :
    generate_job_hash { j with posted_at := s } = generate_job_hash j := rfl

/-- Dropping an element with a false predicate strictly shrinks a filter. -/
theorem filter_length_lt_of_mem {p : α → Bool} {l : List α} {a : α}
    (ha : a ∈ l) (hpa : p a = false) : (l.filter p).length < l.length := by
  induction l with
  | nil => cases ha
  | cons b t ih =>
    rcases List.mem_cons.mp ha with rfl | hmem
    · simp only [List.filter, hpa]
      exact Nat.lt_succ_of_le (List.length_filter_le _ _)
    · by_cases hb : p b
      · simpa [List.filter, hb] using ih hmem
      · simp only [List.filter, hb]
        exact Nat.lt_succ_of_lt (ih hmem)

/-! ### Claim C3 — fingerprint determinism -/

/-- The spec-side normalization ("case-folded, whitespace-collapsed") of a
text, written from the spec's words for comparison against the code's
fingerprint: collapse whitespace runs to single spaces (dropping leading and
trailing whitespace) and lowercase. -/
def specNormalize (s : String) : String :=
  pyLower (String.mk (joinWordsCh (pySplitAux s.data [])))

/-- The spec-side normalized `(title, location, source)` triple. -/
def specNormalizedTriple (j : Job) : String × String × String :=
  (specNormalize j.title, specNormalize j.location, specNormalize j.source)

/-- Claim C3 is false as stated: these two records agree on the normalized
(case-folded, whitespace-collapsed) `(title, location, source)` triple —
their titles differ only in internal whitespace — yet `generate_job_hash`
gives them different fingerprints, because the code lowercases and strips
only the ends of the concatenated string and never collapses internal
whitespace. -/
theorem C3_fingerprint_counterexample :
    specNormalizedTriple { title := "a b", location := "x", source := "s" } =
      specNormalizedTriple { title := "a  b", location := "x", source := "s" } ∧
    generate_job_hash { title := "a b", location := "x", source := "s" } ≠
      generate_job_hash { title := "a  b", location := "x", source := "s" } := by
  constructor
  · decide
  · decide

/-- Claim C3, amended: the fingerprint is a deterministic function of the
lowercased, end-stripped concatenation `title ++ location ++ source`; any
two records agreeing on that string (in particular records differing only
in case, in leading/trailing whitespace of the concatenation, or in any
other field) receive the same fingerprint.  Internal whitespace is *not*
collapsed by the fingerprint itself. -/
theorem C3_fingerprint_amended (j1 j2 : Job)
    (h : pyStrip (pyLower (j1.title ++ j1.location ++ j1.source)) =
         pyStrip (pyLower (j2.title ++ j2.location ++ j2.source))) :
    generate_job_hash j1 = generate_job_hash j2 := by
  simp only [generate_job_hash, h]

/-- Witness for the amended C3 at a concrete case-differing pair. -/
theorem C3_fingerprint_amended_witness :
    generate_job_hash { title := "AB", location := "x", source := "S" } =
      generate_job_hash { title := "ab", location := "x", source := "s" } :=
  C3_fingerprint_amended _ _ (by decide)

/-! ### Claim C7 — store read failures degrade to empty -/

/-- Claim C7: loading the known-set or the delivered-set from a missing file
or from content that does not decode returns the empty list; the load
operations are total functions of the file state, so no read failure
escapes the store boundary. -/
theorem C7_store_read_failure (parseJson : String → Option (List Job))
    (file : Option String) :
    (file = none →
      load_existing_jobs parseJson file = [] ∧
      load_posted_jobs parseJson file = []) ∧
    (∀ s, file = some s → parseJson s = none →
      load_existing_jobs parseJson file = [] ∧
      load_posted_jobs parseJson file = []) := by
  constructor
  · rintro rfl
    exact ⟨rfl, rfl⟩
  · rintro s rfl hp
    simp [load_existing_jobs, load_posted_jobs, hp]

/-- Witness for C7: a corrupt known-set file and a missing delivered-set
file both load as the empty list. -/
theorem C7_store_read_failure_witness :
    load_existing_jobs (fun _ => none) (some "corrupt") = [] ∧
    load_posted_jobs (fun _ => none) none = [] :=
  ⟨((C7_store_read_failure (fun _ => none) (some "corrupt")).2 "corrupt" rfl
      rfl).1,
   ((C7_store_read_failure (fun _ => none) none).1 rfl).2⟩

/-! ### Claim C8 — default category -/

/-- Claim C8: a raw record that passes validation and whose category is
absent (empty) or not one of the two enumerated values is accepted with
category `"government"`. -/
theorem C8_default_category (fmt : Nat → String) (now : Nat) (job out : Job)
    (h : clean_and_validate_job fmt now job = some out)
    (hg : job.category ≠ "government") (hp : job.category ≠ "private") :
    out.category = "government" := by
  by_cases hv : job.title = "" ∨ job.source = ""
  · simp [clean_and_validate_job, hv] at h
  · simp only [clean_and_validate_job, hv, if_false] at h
    have h2 := Option.some.inj h
    subst h2
    by_cases hc : job.category = ""
    · simp [pyDefault, hc]
    · simp [pyDefault, hc, hg, hp]

/-- Witness for C8 at a concrete record with an unrecognized category. -/
theorem C8_default_category_witness :
    (clean_and_validate_job (fun n => toString n) 0
        { title := "Peon", source := "X", category := "weird" }).map
      Job.category = some "government" := by
  cases hc : clean_and_validate_job (fun n => toString n) 0
      { title := "Peon", source := "X", category := "weird" } with
  | none => exact absurd hc (by decide)
  | some out =>
    rw [Option.map_some']
    rw [C8_default_category (fun n => toString n) 0 _ out hc (by decide)
      (by decide)]

/-! ### Claim C6 — deduplicator purity -/

/-- Claim C6 is false as stated: processing a raw batch containing one new
valid record *changes* the persisted known-set (process_jobs itself saves
the union of old and newly accepted records, job_processor.py:68-71), so
the Deduplicator step is not pure with respect to the Store. -/
theorem C6_deduplicator_purity_counterexample :
    (step (fun _ => none) (fun n => toString n) {}
        (Ev.scrape [{ title := "Clerk", location := "Delhi", source := "X" }]
          0)).1.known ≠ ({} : PipeState).known := by
  decide

/-- Claim C6, amended: the dedup-and-persist step never touches the
delivered-set file; the known-set file becomes exactly what `process_jobs`
persists (the old known records plus the newly accepted ones), and it is
left unchanged precisely when no record was accepted.  Updating the
delivered-set remains the caller's (scheduler's) responsibility. -/
theorem C6_deduplicator_frame_amended (parse : String → Option Nat)
    (fmt : Nat → String) (st : PipeState) (raw : List Job) (now : Nat) :
    (step parse fmt st (Ev.scrape raw now)).1.posted = st.posted ∧
    (step parse fmt st (Ev.scrape raw now)).1.known =
      (process_jobs fmt now st.known st.posted raw).1 ∧
    ((process_jobs fmt now st.known st.posted raw).2 = [] →
      (step parse fmt st (Ev.scrape raw now)).1.known = st.known) := by
  refine ⟨rfl, rfl, fun h => ?_⟩
  by_cases hr : raw = []
  · subst hr
    simp [step, process_jobs]
  · simp only [process_jobs, hr, if_false] at h
    simp [step, process_jobs, hr, h]

/-- Witness for the amended C6 at a concrete empty scrape. -/
theorem C6_deduplicator_frame_amended_witness :
    (step (fun _ => none) (fun n => toString n) {}
        (Ev.scrape [] 0)).1.known = ({} : PipeState).known :=
  (C6_deduplicator_frame_amended (fun _ => none) (fun n => toString n) {} []
    0).2.2 (by decide)

/-! ### Claim C5 — known-set retention -/

/-- A record survives the known-set prune when its retention predicate
holds. -/
theorem cleanup_mem_of_pred (parse : String → Option Nat) (now days : Nat)
    (jobs : List Job) (j : Job) (hj : j ∈ jobs)
    (hp : (if j.scraped_at = "" then false
           else
             match parse j.scraped_at with
             | some t => decide (now - days * 86400 < t)
             | none => true) = true) :
    j ∈ cleanup_old_data parse now days jobs := by
  simp only [cleanup_old_data]
  split
  · exact List.mem_filter.mpr ⟨hj, hp⟩
  · exact hj

/-- A record is absent after the known-set prune when its retention
predicate fails. -/
theorem cleanup_not_mem_of_pred (parse : String → Option Nat)
    (now days : Nat) (jobs : List Job) (j : Job) (hj : j ∈ jobs)
    (hp : (if j.scraped_at = "" then false
           else
             match parse j.scraped_at with
             | some t => decide (now - days * 86400 < t)
             | none => true) = false) :
    j ∉ cleanup_old_data parse now days jobs := by
  simp only [cleanup_old_data]
  rw [if_pos (filter_length_lt_of_mem hj hp)]
  intro hmem
  have h2 := (List.mem_filter.mp hmem).2
  rw [hp] at h2
  cases h2

/-- Claim C5 is false as stated: this record's `scraped_at` is unparsable
(the parse function rejects every string, and the field is empty), yet the
record is *dropped* by the prune, because the code's `if scraped_at:` guard
silently discards any record whose `scraped_at` is missing or empty instead
of conservatively keeping it. -/
theorem C5_retention_counterexample :
    (fun (_ : String) => (none : Option Nat))
        (Job.scraped_at { title := "t", source := "s", scraped_at := "" }) =
      none ∧
    cleanup_old_data (fun _ => none) 100 1
      [{ title := "t", source := "s", scraped_at := "" }] = [] := by
  constructor
  · rfl
  · decide

/-- Claim C5, amended: after the known-set prune, a record with a parsable
`scraped_at` is present iff its timestamp is strictly newer than the cutoff
`now - days·86400`; a record with a *non-empty* unparsable `scraped_at` is
conservatively kept; but a record whose `scraped_at` is missing or empty is
unconditionally dropped. -/
theorem C5_retention_amended (parse : String → Option Nat) (now days : Nat)
    (jobs : List Job) (j : Job) (hj : j ∈ jobs) :
    (j.scraped_at = "" → j ∉ cleanup_old_data parse now days jobs) ∧
    (∀ t, parse j.scraped_at = some t → j.scraped_at ≠ "" →
      (j ∈ cleanup_old_data parse now days jobs ↔ now - days * 86400 < t)) ∧
    (parse j.scraped_at = none → j.scraped_at ≠ "" →
      j ∈ cleanup_old_data parse now days jobs) := by
  refine ⟨fun he => ?_, fun t hp hne => ?_, fun hp hne => ?_⟩
  · exact cleanup_not_mem_of_pred parse now days jobs j hj (by simp [he])
  · by_cases hc : now - days * 86400 < t
    · simp only [hc, iff_true]
      exact cleanup_mem_of_pred parse now days jobs j hj
        (by simp [hne, hp, hc])
    · simp only [hc, iff_false]
      exact cleanup_not_mem_of_pred parse now days jobs j hj
        (by simp [hne, hp, hc])
  · exact cleanup_mem_of_pred parse now days jobs j hj (by simp [hne, hp])

/-- Witness for the amended C5: a fresh parsable record survives a prune. -/
theorem C5_retention_amended_witness :
    ({ title := "t", source := "s", scraped_at := "5" } : Job) ∈
      cleanup_old_data (fun s => if s = "5" then some 5 else none) 0 7
        [{ title := "t", source := "s", scraped_at := "5" }] :=
  ((C5_retention_amended (fun s => if s = "5" then some 5 else none) 0 7 _ _
      (by decide)).2.1 5 (by decide) (by decide)).mpr (by decide)

/-! ### Claim C10 — backlog selection -/

/-- Claim C10: the backlog selection returns the undelivered known records
sorted by `scraped_at` descending; a limit of `0` means no limit (the whole
undelivered backlog, as a permutation of the filter); a positive limit `n`
returns at most `n` records, and they are the newest ones — every selected
record's `scraped_at` is at least that of every undelivered record left
out. -/
theorem C10_backlog_selection (limit : Nat) (jobs posted_jobs : List Job) :
    (get_jobs_for_posting limit jobs posted_jobs).Pairwise jobMoreRecent ∧
    (limit = 0 →
      (get_jobs_for_posting limit jobs posted_jobs).Perm
        (undelivered_jobs jobs posted_jobs)) ∧
    (0 < limit →
      (get_jobs_for_posting limit jobs posted_jobs).length ≤ limit ∧
      ∃ rest : List Job,
        (get_jobs_for_posting limit jobs posted_jobs ++ rest).Perm
          (undelivered_jobs jobs posted_jobs) ∧
        ∀ a ∈ get_jobs_for_posting limit jobs posted_jobs, ∀ b ∈ rest,
          jobMoreRecent a b) := by
  have hsorted := List.sorted_insertionSort jobMoreRecent
    (undelivered_jobs jobs posted_jobs)
  have hperm := List.perm_insertionSort jobMoreRecent
    (undelivered_jobs jobs posted_jobs)
  by_cases hl : limit = 0
  · subst hl
    have hg : get_jobs_for_posting 0 jobs posted_jobs =
        (undelivered_jobs jobs posted_jobs).insertionSort jobMoreRecent := by
      simp only [get_jobs_for_posting, ne_eq, not_true_eq_false, if_false]
    refine ⟨?_, ?_, ?_⟩
    · rw [hg]
      exact hsorted
    · intro _
      rw [hg]
      exact hperm
    · intro h
      exact absurd h (lt_irrefl 0)
  · have hg : get_jobs_for_posting limit jobs posted_jobs =
        ((undelivered_jobs jobs posted_jobs).insertionSort
          jobMoreRecent).take limit := by
      simp only [get_jobs_for_posting, ne_eq, hl, not_false_eq_true, if_true]
    refine ⟨?_, fun h => absurd h hl, fun _ => ⟨?_, ?_⟩⟩
    · rw [hg]
      exact hsorted.sublist (List.take_sublist _ _)
    · rw [hg, List.length_take]
      exact min_le_left _ _
    · refine ⟨((undelivered_jobs jobs posted_jobs).insertionSort
          jobMoreRecent).drop limit, ?_, ?_⟩
      · rw [hg, List.take_append_drop]
        exact hperm
      · intro a ha b hb
        rw [hg] at ha
        have hsp := hsorted
        rw [← List.take_append_drop limit ((undelivered_jobs jobs
          posted_jobs).insertionSort jobMoreRecent)] at hsp
        exact (List.pairwise_append.mp hsp).2.2 a ha b hb

/-- Witness for C10 at a concrete known/delivered pair: a positive limit
bounds the selection, and limit 0 selects the whole undelivered backlog. -/
theorem C10_backlog_selection_witness :
    (get_jobs_for_posting 1
        [{ title := "a", source := "s", scraped_at := "2", job_hash := "h1" },
         { title := "b", source := "s", scraped_at := "1", job_hash := "h2" }]
        [{ title := "c", source := "s", job_hash := "h2" }]).length ≤ 1 ∧
    (get_jobs_for_posting 0
        [{ title := "a", source := "s", scraped_at := "2", job_hash := "h1" },
         { title := "b", source := "s", scraped_at := "1", job_hash := "h2" }]
        [{ title := "c", source := "s", job_hash := "h2" }]).Perm
      (undelivered_jobs
        [{ title := "a", source := "s", scraped_at := "2", job_hash := "h1" },
         { title := "b", source := "s", scraped_at := "1", job_hash := "h2" }]
        [{ title := "c", source := "s", job_hash := "h2" }]) :=
  ⟨((C10_backlog_selection 1 _ _).2.2 one_pos).1,
   (C10_backlog_selection 0 _ _).2.1 rfl⟩

/-! ### Claim C4 — deduplicator acceptance condition -/

/-- The record at index `i` of a raw batch, after cleaning/validation
(`default` is only reached for out-of-range indices or invalid records). -/
def cleanedAt (fmt : Nat → String) (now : Nat) (raw : List Job) (i : Nat) :
    Job :=
  (clean_and_validate_job fmt now (raw.getD i default)).getD default

/-- The fingerprint of the cleaned record at index `i` of a raw batch. -/
def hashAt (fmt : Nat → String) (now : Nat) (raw : List Job) (i : Nat) :
    String :=
  generate_job_hash (cleanedAt fmt now raw i)

/-- The acceptance condition of the deduplicator for the record at index
`i`: its fingerprint is in neither the `eh` (known) nor the `ph`
(delivered) fingerprint set, and no earlier record of the same batch
produced the same fingerprint. -/
def dedupCond (fmt : Nat → String) (now : Nat) (ph eh : List String)
    (raw : List Job) (i : Nat) : Prop :=
  hashAt fmt now raw i ∉ eh ∧ hashAt fmt now raw i ∉ ph ∧
    ∀ j, j < i → hashAt fmt now raw j ≠ hashAt fmt now raw i

instance (fmt : Nat → String) (now : Nat) (ph eh : List String)
    (raw : List Job) (i : Nat) : Decidable (dedupCond fmt now ph eh raw i) :=
  inferInstanceAs (Decidable (hashAt fmt now raw i ∉ eh ∧
    hashAt fmt now raw i ∉ ph ∧
    ∀ j, j < i → hashAt fmt now raw j ≠ hashAt fmt now raw i))

/-- `cleanedAt` at a successor index looks at the tail. -/
theorem cleanedAt_succ (fmt : Nat → String) (now : Nat) (r : Job)
    (rest : List Job) (i : Nat) :
    cleanedAt fmt now (r :: rest) (i + 1) = cleanedAt fmt now rest i := rfl

/-- `hashAt` at a successor index looks at the tail. -/
theorem hashAt_succ (fmt : Nat → String) (now : Nat) (r : Job)
    (rest : List Job) (i : Nat) :
    hashAt fmt now (r :: rest) (i + 1) = hashAt fmt now rest i := rfl

/-- `hashAt` at index 0 of a valid head record. -/
theorem hashAt_zero (fmt : Nat → String) (now : Nat) (r p : Job)
    (rest : List Job) (hp : clean_and_validate_job fmt now r = some p) :
    hashAt fmt now (r :: rest) 0 = generate_job_hash p := by
  simp [hashAt, cleanedAt, hp]

/-- Splitting a bounded quantifier below a successor. -/
theorem ballLT_succ_iff (P : Nat → Prop) (i : Nat) :
    (∀ j, j < i + 1 → P j) ↔ P 0 ∧ ∀ j, j < i → P (j + 1) := by
  constructor
  · intro h
    exact ⟨h 0 (Nat.succ_pos i), fun j hj => h (j + 1) (Nat.succ_lt_succ hj)⟩
  · rintro ⟨h0, h⟩ j hj
    cases j with
    | zero => exact h0
    | succ k => exact h k (Nat.lt_of_succ_lt_succ hj)

/-- Acceptance at a shifted index, when the head record was accepted (its
hash joined the in-batch hash set). -/
theorem dedupCond_succ_accept (fmt : Nat → String) (now : Nat)
    (ph eh : List String) (r p : Job) (rest : List Job)
    (hp : clean_and_validate_job fmt now r = some p) (i : Nat) :
    dedupCond fmt now ph eh (r :: rest) (i + 1) ↔
      dedupCond fmt now ph (generate_job_hash p :: eh) rest i := by
  unfold dedupCond
  simp only [hashAt_succ]
  rw [ballLT_succ_iff (fun j =>
    hashAt fmt now (r :: rest) j ≠ hashAt fmt now rest i) i]
  rw [hashAt_zero fmt now r p rest hp]
  simp only [List.mem_cons, not_or]
  constructor
  · rintro ⟨h1, h2, h0, h4⟩
    exact ⟨⟨fun he => h0 he.symm, h1⟩, h2, h4⟩
  · rintro ⟨⟨hne, h1⟩, h2, h4⟩
    exact ⟨h1, h2, fun he => hne he.symm, h4⟩

/-- Acceptance at a shifted index, when the head record was rejected as a
duplicate (its hash was already known or delivered, so it joined nothing,
and it cannot collide with any later acceptable hash). -/
theorem dedupCond_succ_reject (fmt : Nat → String) (now : Nat)
    (ph eh : List String) (r p : Job) (rest : List Job)
    (hp : clean_and_validate_job fmt now r = some p)
    (hmem : generate_job_hash p ∈ eh ∨ generate_job_hash p ∈ ph) (i : Nat) :
    dedupCond fmt now ph eh (r :: rest) (i + 1) ↔
      dedupCond fmt now ph eh rest i := by
  unfold dedupCond
  simp only [hashAt_succ]
  rw [ballLT_succ_iff (fun j =>
    hashAt fmt now (r :: rest) j ≠ hashAt fmt now rest i) i]
  rw [hashAt_zero fmt now r p rest hp]
  constructor
  · rintro ⟨h1, h2, _, h4⟩
    exact ⟨h1, h2, h4⟩
  · rintro ⟨h1, h2, h4⟩
    refine ⟨h1, h2, fun he => ?_, h4⟩
    rcases hmem with hm | hm
    · exact h1 (he ▸ hm)
    · exact h2 (he ▸ hm)

/-- The dedup loop, characterized index-wise: when every record of the
batch passes validation, the accepted output consists of exactly the
cleaned-and-fingerprinted records at the indices satisfying `dedupCond`. -/
theorem dedupLoop_eq_filter (fmt : Nat → String) (now : Nat)
    (ph : List String) :
    ∀ (raw : List Job) (eh : List String),
      (∀ r ∈ raw, (clean_and_validate_job fmt now r).isSome = true) →
      dedupLoop fmt now ph eh raw =
        ((List.range raw.length).filter
          (fun i => decide (dedupCond fmt now ph eh raw i))).map
          (fun i => { cleanedAt fmt now raw i with
            job_hash := hashAt fmt now raw i }) := by
  intro raw
  induction raw with
  | nil =>
    intro eh _
    simp [dedupLoop]
  | cons r rest ih =>
    intro eh hv
    obtain ⟨p, hp⟩ := Option.isSome_iff_exists.mp
      (hv r (List.mem_cons_self r rest))
    have hvrest : ∀ r' ∈ rest, (clean_and_validate_job fmt now r').isSome =
        true := fun r' hr' => hv r' (List.mem_cons_of_mem r hr')
    simp only [dedupLoop, hp]
    rw [show (r :: rest).length = rest.length + 1 from rfl,
      List.range_succ_eq_map, List.filter_cons]
    by_cases hmem : generate_job_hash p ∈ eh ∨ generate_job_hash p ∈ ph
    · rw [if_pos hmem]
      have hc0 : ¬dedupCond fmt now ph eh (r :: rest) 0 := by
        rintro ⟨h1, h2, _⟩
        rw [hashAt_zero fmt now r p rest hp] at h1 h2
        rcases hmem with hm | hm
        · exact h1 hm
        · exact h2 hm
      rw [if_neg (by simpa using hc0)]
      rw [List.filter_map, List.map_map]
      simp only [Function.comp_def, Nat.succ_eq_add_one]
      rw [List.filter_congr (fun i _ => decide_eq_decide.mpr
        (dedupCond_succ_reject fmt now ph eh r p rest hp hmem i))]
      exact ih eh hvrest
    · rw [if_neg hmem]
      have hc0 : dedupCond fmt now ph eh (r :: rest) 0 := by
        refine ⟨?_, ?_, fun j hj => absurd hj (Nat.not_lt_zero j)⟩
        · rw [hashAt_zero fmt now r p rest hp]
          exact fun hm => hmem (Or.inl hm)
        · rw [hashAt_zero fmt now r p rest hp]
          exact fun hm => hmem (Or.inr hm)
      rw [if_pos (by simpa using hc0)]
      rw [List.filter_map, List.map_cons, List.map_map]
      simp only [Function.comp_def, Nat.succ_eq_add_one]
      rw [List.filter_congr (fun i _ => decide_eq_decide.mpr
        (dedupCond_succ_accept fmt now ph eh r p rest hp i))]
      congr 1
      · simp [cleanedAt, hashAt, hp]
      · exact ih (generate_job_hash p :: eh) hvrest

/-- Claim C4: for a raw batch whose records all pass validation, the
deduplicator's accepted output consists of exactly the records whose
fingerprint is in neither the known nor the delivered fingerprint set and
whose fingerprint was not already produced by an earlier record of the same
batch (first occurrence wins); and the concrete case-differing
`Clerk`/`clerk` batch against empty sets yields exactly one accepted
record. -/
theorem C4_dedup_acceptance :
    (∀ (fmt : Nat → String) (now : Nat) (known posted raw : List Job),
      (∀ r ∈ raw, (clean_and_validate_job fmt now r).isSome = true) →
      (process_jobs fmt now known posted raw).2 =
        ((List.range raw.length).filter
          (fun i => decide (dedupCond fmt now
            (posted.map generate_job_hash) (known.map generate_job_hash)
            raw i))).map
          (fun i => { cleanedAt fmt now raw i with
            job_hash := hashAt fmt now raw i })) ∧
    (process_jobs (fun n => toString n) 0 [] []
        [{ title := "Clerk", location := "Delhi", source := "X" },
         { title := "clerk", location := "delhi", source := "X" }]).2.length
      = 1 := by
  constructor
  · intro fmt now known posted raw hv
    by_cases hraw : raw = []
    · subst hraw
      simp [process_jobs]
    · simp only [process_jobs, hraw, if_false]
      exact dedupLoop_eq_filter fmt now (posted.map generate_job_hash) raw
        (known.map generate_job_hash) hv
  · decide

/-- Witness for C4 at a three-record batch: the case-differing duplicate is
dropped, the two distinct fingerprints are accepted. -/
theorem C4_dedup_acceptance_witness :
    (process_jobs (fun n => toString n) 0 [] []
        [{ title := "Peon", source := "X" },
         { title := "peon", source := "X" },
         { title := "Peon", source := "Y" }]).2.length = 2 := by
  rw [C4_dedup_acceptance.1 (fun n => toString n) 0 [] [] _ (by decide)]
  decide

/-! ### Claim C9 — idempotent dedup -/

/-- Re-running validation at a different time changes only the two
timestamp fields (`scraped_at` only when it was absent). -/
theorem clean_and_validate_shift (fmt : Nat → String) (now now' : Nat)
    (j : Job) :
    clean_and_validate_job fmt now' j =
      (clean_and_validate_job fmt now j).map
        (fun p => { p with
          scraped_at := pyDefault j.scraped_at (fmt now')
          processed_at := fmt now' }) := by
  simp only [clean_and_validate_job]
  split
  · rfl
  · split
    · rfl
    · rfl

/-- The fingerprint ignores the two timestamp fields. -/
theorem hash_set_times (p : Job) (s t : String) :
    generate_job_hash { p with scraped_at := s, processed_at := t } =
      generate_job_hash p := rfl

/-- Every record accepted by the dedup loop carries its own fingerprint in
`job_hash`. -/
theorem dedupLoop_job_hash (fmt : Nat → String) (now : Nat)
    (ph : List String) :
    ∀ (raw : List Job) (eh : List String) (j : Job),
      j ∈ dedupLoop fmt now ph eh raw → j.job_hash = generate_job_hash j := by
  intro raw
  induction raw with
  | nil =>
    intro eh j h
    cases h
  | cons r rest ih =>
    intro eh j hj
    cases hc : clean_and_validate_job fmt now r with
    | none =>
      simp only [dedupLoop, hc] at hj
      exact ih eh j hj
    | some p =>
      simp only [dedupLoop, hc] at hj
      by_cases hb : generate_job_hash p ∈ eh ∨ generate_job_hash p ∈ ph
      · rw [if_pos hb] at hj
        exact ih eh j hj
      · rw [if_neg hb] at hj
        rcases List.mem_cons.mp hj with rfl | h'
        · rfl
        · exact ih (generate_job_hash p :: eh) j h'

/-- If every valid record of the batch is already blocked (its fingerprint
is in the in-batch set or the delivered set), the dedup loop accepts
nothing. -/
theorem dedupLoop_all_blocked (fmt : Nat → String) (now : Nat)
    (ph : List String) :
    ∀ (raw : List Job) (eh : List String),
      (∀ r ∈ raw, ∀ p, clean_and_validate_job fmt now r = some p →
        generate_job_hash p ∈ eh ∨ generate_job_hash p ∈ ph) →
      dedupLoop fmt now ph eh raw = [] := by
  intro raw
  induction raw with
  | nil =>
    intro eh _
    rfl
  | cons r rest ih =>
    intro eh hb
    cases hc : clean_and_validate_job fmt now r with
    | none =>
      simp only [dedupLoop, hc]
      exact ih eh (fun r' h' p' h'' => hb r' (List.mem_cons_of_mem r h') p' h'')
    | some p =>
      simp only [dedupLoop, hc,
        if_pos (hb r (List.mem_cons_self r rest) p hc)]
      exact ih eh (fun r' h' p' h'' => hb r' (List.mem_cons_of_mem r h') p' h'')

/-- After one pass of the dedup loop, every valid record of the batch has
its fingerprint in the original in-batch set, the delivered set, or among
the fingerprints stored on the accepted output. -/
theorem dedupLoop_covers (fmt : Nat → String) (now : Nat)
    (ph : List String) :
    ∀ (raw : List Job) (eh : List String) (r : Job) (p : Job),
      r ∈ raw → clean_and_validate_job fmt now r = some p →
      generate_job_hash p ∈ eh ∨ generate_job_hash p ∈ ph ∨
        generate_job_hash p ∈
          (dedupLoop fmt now ph eh raw).map (·.job_hash) := by
  intro raw
  induction raw with
  | nil =>
    intro eh r p hr
    cases hr
  | cons r0 rest ih =>
    intro eh r p hr hp
    rcases List.mem_cons.mp hr with rfl | hmem
    · simp only [dedupLoop, hp]
      by_cases hb : generate_job_hash p ∈ eh ∨ generate_job_hash p ∈ ph
      · rcases hb with h | h
        · exact Or.inl h
        · exact Or.inr (Or.inl h)
      · rw [if_neg hb]
        refine Or.inr (Or.inr ?_)
        simp only [List.map_cons]
        exact List.mem_cons_self _ _
    · cases hc0 : clean_and_validate_job fmt now r0 with
      | none =>
        simp only [dedupLoop, hc0]
        exact ih eh r p hmem hp
      | some p0 =>
        simp only [dedupLoop, hc0]
        by_cases hb : generate_job_hash p0 ∈ eh ∨ generate_job_hash p0 ∈ ph
        · rw [if_pos hb]
          exact ih eh r p hmem hp
        · rw [if_neg hb]
          rcases ih (generate_job_hash p0 :: eh) r p hmem hp with h | h | h
          · rcases List.mem_cons.mp h with heq | h'
            · refine Or.inr (Or.inr ?_)
              simp only [List.map_cons]
              rw [heq]
              exact List.mem_cons_self _ _
            · exact Or.inl h'
          · exact Or.inr (Or.inl h)
          · refine Or.inr (Or.inr ?_)
            simp only [List.map_cons]
            exact List.mem_cons_of_mem _ h

/-- The fingerprints of the accepted output do not depend on the wall-clock
time at which the batch is processed. -/
theorem dedupLoop_hashes_time (fmt : Nat → String) (now1 now2 : Nat)
    (ph : List String) :
    ∀ (raw : List Job) (eh : List String),
      (dedupLoop fmt now1 ph eh raw).map (·.job_hash) =
        (dedupLoop fmt now2 ph eh raw).map (·.job_hash) := by
  intro raw
  induction raw with
  | nil =>
    intro eh
    rfl
  | cons r rest ih =>
    intro eh
    cases hc : clean_and_validate_job fmt now1 r with
    | none =>
      have hc2 : clean_and_validate_job fmt now2 r = none := by
        rw [clean_and_validate_shift fmt now1 now2 r, hc]
        rfl
      simp only [dedupLoop, hc, hc2]
      exact ih eh
    | some p =>
      have hc2 : clean_and_validate_job fmt now2 r =
          some { p with
            scraped_at := pyDefault r.scraped_at (fmt now2)
            processed_at := fmt now2 } := by
        rw [clean_and_validate_shift fmt now1 now2 r, hc]
        rfl
      simp only [dedupLoop, hc, hc2, hash_set_times]
      by_cases hb : generate_job_hash p ∈ eh ∨ generate_job_hash p ∈ ph
      · rw [if_pos hb, if_pos hb]
        exact ih eh
      · rw [if_neg hb, if_neg hb]
        simp only [List.map_cons]
        congr 1
        exact ih (generate_job_hash p :: eh)

/-- A fingerprint present among the old known records, or among the newly
accepted output, is present in the known-set that `process_jobs`
persists. -/
theorem process_keeps_hashes (fmt : Nat → String) (now : Nat)
    (known posted raw : List Job) (h : String)
    (hmem : h ∈ known.map generate_job_hash ∨
      h ∈ (dedupLoop fmt now (posted.map generate_job_hash)
        (known.map generate_job_hash) raw).map (·.job_hash))
    (hraw : raw ≠ []) :
    h ∈ (process_jobs fmt now known posted raw).1.map generate_job_hash := by
  simp only [process_jobs, hraw, if_false]
  by_cases hnew : dedupLoop fmt now (posted.map generate_job_hash)
      (known.map generate_job_hash) raw = []
  · rw [if_pos hnew]
    rcases hmem with hm | hm
    · exact hm
    · rw [hnew] at hm
      cases hm
  · rw [if_neg hnew, List.map_append]
    rcases hmem with hm | hm
    · exact List.mem_append_left _ hm
    · obtain ⟨j, hj, rfl⟩ := List.mem_map.mp hm
      refine List.mem_append_right _ (List.mem_map.mpr ⟨j, hj, ?_⟩)
      exact (dedupLoop_job_hash fmt now _ raw _ j hj).symm

/-- `process_jobs` accepts nothing when every valid record of the batch is
already known or delivered. -/
theorem process_snd_empty_of_blocked (fmt : Nat → String) (now : Nat)
    (known posted raw : List Job)
    (hb : ∀ r ∈ raw, ∀ p, clean_and_validate_job fmt now r = some p →
      generate_job_hash p ∈ known.map generate_job_hash ∨
      generate_job_hash p ∈ posted.map generate_job_hash) :
    (process_jobs fmt now known posted raw).2 = [] := by
  by_cases hraw : raw = []
  · subst hraw
    simp [process_jobs]
  · simp only [process_jobs, hraw, if_false]
    exact dedupLoop_all_blocked fmt now _ raw _ hb

/-- Claim C9: once the first run's accepted output has been persisted to the
known-set (which `process_jobs` does itself), re-processing the same raw
batch — at any later wall-clock time — accepts nothing; and without
persisting, a re-run against the same known/delivered sets accepts exactly
the same set of fingerprints, independent of the processing time. -/
theorem C9_idempotent_dedup (fmt : Nat → String) (now1 now2 : Nat)
    (known posted raw : List Job) :
    (process_jobs fmt now2 (process_jobs fmt now1 known posted raw).1 posted
      raw).2 = [] ∧
    (process_jobs fmt now1 known posted raw).2.map (·.job_hash) =
      (process_jobs fmt now2 known posted raw).2.map (·.job_hash) := by
  constructor
  · by_cases hraw : raw = []
    · subst hraw
      simp [process_jobs]
    · apply process_snd_empty_of_blocked
      intro r hr p2 hp2
      rw [clean_and_validate_shift fmt now1 now2 r] at hp2
      cases hc1 : clean_and_validate_job fmt now1 r with
      | none =>
        rw [hc1] at hp2
        cases hp2
      | some p1 =>
        rw [hc1] at hp2
        have hp2' := Option.some.inj hp2
        have hhash : generate_job_hash p2 = generate_job_hash p1 := by
          rw [← hp2']
          exact hash_set_times p1 _ _
        rw [hhash]
        rcases dedupLoop_covers fmt now1 (posted.map generate_job_hash) raw
          (known.map generate_job_hash) r p1 hr hc1 with h | h | h
        · exact Or.inl
            (process_keeps_hashes fmt now1 known posted raw _ (Or.inl h) hraw)
        · exact Or.inr h
        · exact Or.inl
            (process_keeps_hashes fmt now1 known posted raw _ (Or.inr h) hraw)
  · by_cases hraw : raw = []
    · subst hraw
      simp [process_jobs]
    · simp only [process_jobs, hraw, if_false]
      exact dedupLoop_hashes_time fmt now1 now2 _ raw _

/-! ### Claim C2 — at-least-one-success delivery -/

/-- The 30-day retention comprehension keeps every entry whose timestamp
parses and beats the cutoff, raising no error. -/
theorem markFilter_all_kept (parse : String → Option Nat)
    (fmt : Nat → String) (now cutoff : Nat) :
    ∀ l : List Job,
      (∀ j ∈ l, ∃ t, parse (pyDefault j.posted_at (fmt now)) = some t ∧
        cutoff < t) →
      markFilter parse fmt now cutoff l = some l := by
  intro l
  induction l with
  | nil =>
    intro _
    rfl
  | cons j rest ih =>
    intro hall
    obtain ⟨t, hp, ht⟩ := hall j (List.mem_cons_self j rest)
    simp only [markFilter, hp]
    rw [ih (fun j' h' => hall j' (List.mem_cons_of_mem j h'))]
    simp [ht]

/-- When every pre-existing posted entry is still inside the 30-day window
and the freshly stamped timestamp parses, marking succeeds and appends the
stamped batch to the delivered-set. -/
theorem mark_success (parse : String → Option Nat) (fmt : Nat → String)
    (now : Nat) (posted jobs : List Job)
    (hjobs : jobs ≠ [])
    (hold : ∀ j ∈ posted, ∃ t, parse (pyDefault j.posted_at (fmt now)) =
      some t ∧ now - 2592000 < t)
    (hfmt : ∃ t, parse (fmt now) = some t ∧ now - 2592000 < t) :
    mark_jobs_as_posted parse fmt now posted jobs =
      some (posted ++ jobs.map (fun j => { j with posted_at := fmt now })) := by
  simp only [mark_jobs_as_posted, hjobs, if_false]
  apply markFilter_all_kept
  intro j hj
  rcases List.mem_append.mp hj with hm | hm
  · exact hold j hm
  · obtain ⟨j0, _, rfl⟩ := List.mem_map.mp hm
    obtain ⟨t, hp, ht⟩ := hfmt
    refine ⟨t, ?_, ht⟩
    simpa [pyDefault] using hp

/-- A record selected for posting is a known record whose (truthy) hash is
not among the delivered hashes. -/
theorem get_jobs_not_posted (limit : Nat) (jobs posted_jobs : List Job)
    (s : Job) (hs : s ∈ get_jobs_for_posting limit jobs posted_jobs) :
    s ∈ jobs ∧
      s.job_hash ∉
        (posted_jobs.map (·.job_hash)).filter (fun h => h != "") := by
  have hmem : s ∈ undelivered_jobs jobs posted_jobs := by
    simp only [get_jobs_for_posting] at hs
    by_cases hl : limit ≠ 0
    · rw [if_pos hl] at hs
      exact (List.mem_insertionSort jobMoreRecent).mp
        (List.mem_of_mem_take hs)
    · rw [if_neg hl] at hs
      exact (List.mem_insertionSort jobMoreRecent).mp hs
  simp only [undelivered_jobs, List.mem_filter, Bool.not_eq_true',
    List.contains, List.elem_eq_mem, decide_eq_false_iff_not] at hmem
  refine ⟨hmem.1, fun hin => hmem.2 ?_⟩
  exact List.mem_filter.mp hin

/-- Claim C2: for a non-empty batch (whose records carry their own
fingerprints, as every pipeline-produced record does), if at least one of
the two channels reports success, every batch record enters the
delivered-set stamped with the delivery timestamp and no record with any
batch record's fingerprint (in particular no batch record itself) is
selected by the next backlog-selection pass; if both channels fail, the
delivered-set is unchanged.  The parse hypotheses say the pre-existing
delivered entries are within the 30-day retention window and freshly
written timestamps round-trip — both invariants of pipeline-produced
states. -/
theorem C2_at_least_one_success (parse : String → Option Nat)
    (fmt : Nat → String) (now : Nat) (tg blog : Bool)
    (known posted batch : List Job)
    (hne : batch ≠ [])
    (hhash : ∀ j ∈ batch, j.job_hash = generate_job_hash j)
    (hold : ∀ j ∈ posted, ∃ t, parse (pyDefault j.posted_at (fmt now)) =
      some t ∧ now - 2592000 < t)
    (hfmt : ∃ t, parse (fmt now) = some t ∧ now - 2592000 < t) :
    ((tg || blog) = true →
      (∀ j ∈ batch, ({ j with posted_at := fmt now }) ∈
        (post_jobs parse fmt now tg blog posted batch).1) ∧
      (∀ j ∈ batch, ∀ limit : Nat,
        ∀ s ∈ get_jobs_for_posting limit known
          (post_jobs parse fmt now tg blog posted batch).1,
        s.job_hash ≠ j.job_hash ∧ s ≠ j)) ∧
    ((tg || blog) = false →
      (post_jobs parse fmt now tg blog posted batch).1 = posted) := by
  constructor
  · intro hsucc
    have h1 : (post_jobs parse fmt now tg blog posted batch).1 =
        posted ++ batch.map (fun j => { j with posted_at := fmt now }) := by
      simp only [post_jobs, hne, if_false, hsucc, if_true,
        mark_success parse fmt now posted batch hne hold hfmt]
    constructor
    · intro j hj
      rw [h1]
      exact List.mem_append_right _ (List.mem_map.mpr ⟨j, hj, rfl⟩)
    · intro j hj limit s hs
      obtain ⟨_, hsnot⟩ := get_jobs_not_posted limit known _ s hs
      have hjne : j.job_hash ≠ "" := by
        rw [hhash j hj]
        exact generate_job_hash_ne_empty j
      have hjin : j.job_hash ∈
          (((post_jobs parse fmt now tg blog posted batch).1.map
            (·.job_hash)).filter (fun h => h != "")) := by
        rw [h1]
        apply List.mem_filter.mpr
        constructor
        · apply List.mem_map.mpr
          refine ⟨({ j with posted_at := fmt now } : Job), ?_, rfl⟩
          exact List.mem_append_right _ (List.mem_map.mpr ⟨j, hj, rfl⟩)
        · simpa using hjne
      constructor
      · intro heq
        rw [heq] at hsnot
        exact hsnot hjin
      · intro heq
        rw [heq] at hsnot
        exact hsnot hjin
  · intro hfail
    simp [post_jobs, hne, hfail]

/-- Witness for C2: with Telegram failing and Blogger succeeding, the
single-record batch lands in the delivered-set with its delivery
timestamp. -/
theorem C2_at_least_one_success_witness :
    ({ title := "t", source := "s",
       job_hash := generate_job_hash { title := "t", source := "s" },
       posted_at := "T" } : Job) ∈
      (post_jobs (fun _ => some 1) (fun _ => "T") 0 false true []
        [{ title := "t", source := "s",
           job_hash := generate_job_hash { title := "t", source := "s" } }]).1 :=
  ((C2_at_least_one_success (fun _ => some 1) (fun _ => "T") 0 false true
      [] []
      [{ title := "t", source := "s",
         job_hash := generate_job_hash { title := "t", source := "s" } }]
      (List.cons_ne_nil _ _)
      (fun j hj => by
        rw [List.mem_singleton] at hj
        subst hj
        rfl)
      (fun j hj => absurd hj (List.not_mem_nil j))
      ⟨1, rfl, by decide⟩).1 rfl).1 _ (List.mem_cons_self _ _)

/-! ### Claim C1 — no duplicate delivery -/

/-- The wall-clock time of an orchestrator action. -/
def evNow : Ev → Nat
  | .scrape _ n => n
  | .post _ _ _ n => n
  | .delayed _ _ n => n
  | .sweep _ n => n

/-- Whether an action is the delayed batch-specific posting task. -/
def isDelayedEv : Ev → Bool
  | .delayed _ _ _ => true
  | _ => false

/-- Pipeline hash consistency: every persisted record carries its own
fingerprint in `job_hash` — an invariant of every state the pipeline
produces from the empty state. -/
def HashInv (st : PipeState) : Prop :=
  (∀ j ∈ st.known, j.job_hash = generate_job_hash j) ∧
  (∀ j ∈ st.posted, j.job_hash = generate_job_hash j)

/-- Every record of every successful logged batch has its fingerprint in
the current delivered-set. -/
def Covered (log : List (List Job × Bool)) (st : PipeState) : Prop :=
  ∀ e ∈ log, e.2 = true →
    ∀ r ∈ e.1, generate_job_hash r ∈ st.posted.map generate_job_hash

/-- No fingerprint occurs in two distinct successful delivery batches of
the log. -/
def NoDupLog (log : List (List Job × Bool)) : Prop :=
  log.Pairwise (fun e1 e2 => e1.2 = true → e2.2 = true →
    ∀ r1 ∈ e1.1, ∀ r2 ∈ e2.1,
      generate_job_hash r1 ≠ generate_job_hash r2)

/-- `process_jobs` preserves hash consistency of the known-set. -/
theorem process_preserves_inv (fmt : Nat → String) (now : Nat)
    (known posted raw : List Job)
    (h : ∀ j ∈ known, j.job_hash = generate_job_hash j) :
    ∀ j ∈ (process_jobs fmt now known posted raw).1,
      j.job_hash = generate_job_hash j := by
  intro j hj
  by_cases hraw : raw = []
  · subst hraw
    simp only [process_jobs, if_pos rfl] at hj
    exact h j hj
  · simp only [process_jobs, hraw, if_false] at hj
    by_cases hnew : dedupLoop fmt now (posted.map generate_job_hash)
        (known.map generate_job_hash) raw = []
    · rw [if_pos hnew] at hj
      exact h j hj
    · rw [if_neg hnew] at hj
      rcases List.mem_append.mp hj with hm | hm
      · exact h j hm
      · exact dedupLoop_job_hash fmt now _ raw _ j hm

/-- The known-set prune only removes records. -/
theorem cleanup_subset (parse : String → Option Nat) (now days : Nat)
    (jobs : List Job) (j : Job)
    (hj : j ∈ cleanup_old_data parse now days jobs) : j ∈ jobs := by
  simp only [cleanup_old_data] at hj
  split at hj
  · exact (List.mem_filter.mp hj).1
  · exact hj

/-- Under hash consistency, no record selected for posting carries a
fingerprint that is already delivered. -/
theorem sel_hash_not_posted (limit : Nat) (st : PipeState) (r : Job)
    (hinv : HashInv st)
    (hr : r ∈ get_jobs_for_posting limit st.known st.posted) :
    generate_job_hash r ∉ st.posted.map generate_job_hash := by
  obtain ⟨hrk, hnot⟩ := get_jobs_not_posted limit st.known st.posted r hr
  intro hin
  obtain ⟨p, hp, hpe⟩ := List.mem_map.mp hin
  apply hnot
  apply List.mem_filter.mpr
  constructor
  · apply List.mem_map.mpr
    refine ⟨p, hp, ?_⟩
    rw [hinv.2 p hp, hpe, ← hinv.1 r hrk]
  · have hne := hinv.1 r hrk
    simp only [bne_iff_ne, ne_eq, hne]
    exact generate_job_hash_ne_empty r

/-- One non-delayed orchestrator step within the 30-day window preserves
hash consistency and coverage, and extends the log without ever publishing
an already-delivered fingerprint in a successful batch. -/
theorem step_preserves (parse : String → Option Nat) (fmt : Nat → String)
    (st : PipeState) (e : Ev)
    (hnd : isDelayedEv e = false)
    (hrec : evNow e ≤ 2592000)
    (hparse : ∀ s, ∃ t, parse s = some t ∧ 0 < t)
    (hinv : HashInv st) :
    ∀ log0, Covered log0 st → NoDupLog log0 →
      HashInv (step parse fmt st e).1 ∧
      Covered (log0 ++ (step parse fmt st e).2) (step parse fmt st e).1 ∧
      NoDupLog (log0 ++ (step parse fmt st e).2) := by
  cases e with
  | scrape raw n =>
    intro log0 hcov hnodup
    simp only [step]
    refine ⟨⟨process_preserves_inv fmt n st.known st.posted raw hinv.1,
      hinv.2⟩, ?_, ?_⟩
    · rw [List.append_nil]
      exact hcov
    · rw [List.append_nil]
      exact hnodup
  | post tg blog limit n =>
    intro log0 hcov hnodup
    simp only [step]
    by_cases hsel : get_jobs_for_posting limit st.known st.posted = []
    · rw [if_pos hsel]
      rw [List.append_nil]
      exact ⟨hinv, hcov, hnodup⟩
    · rw [if_neg hsel]
      have hcut : n - 2592000 = 0 := Nat.sub_eq_zero_of_le hrec
      by_cases hs : (tg || blog) = true
      · have hm := mark_success parse fmt n st.posted
          (get_jobs_for_posting limit st.known st.posted) hsel
          (fun j _ => by
            obtain ⟨t, hp, ht⟩ := hparse (pyDefault j.posted_at (fmt n))
            exact ⟨t, hp, by omega⟩)
          (by
            obtain ⟨t, hp, ht⟩ := hparse (fmt n)
            exact ⟨t, hp, by omega⟩)
        have hpj : post_jobs parse fmt n tg blog st.posted
            (get_jobs_for_posting limit st.known st.posted) =
            (st.posted ++ (get_jobs_for_posting limit st.known st.posted).map
              (fun j => ({ j with posted_at := fmt n } : Job)),
             [(get_jobs_for_posting limit st.known st.posted, true)]) := by
          simp only [post_jobs, hsel, if_false, hs, if_true, hm]
        simp only [hpj]
        refine ⟨⟨hinv.1, ?_⟩, ?_, ?_⟩
        · intro j hj
          rcases List.mem_append.mp hj with hm' | hm'
          · exact hinv.2 j hm'
          · obtain ⟨j0, hj0, rfl⟩ := List.mem_map.mp hm'
            have hj0k := (get_jobs_not_posted limit st.known st.posted j0
              hj0).1
            rw [hash_set_posted_at]
            exact hinv.1 j0 hj0k
        · intro e2 he2 hsu r hr
          rcases List.mem_append.mp he2 with hm' | hm'
          · have hold := hcov e2 hm' hsu r hr
            rw [List.map_append]
            exact List.mem_append_left _ hold
          · rw [List.mem_singleton] at hm'
            subst hm'
            rw [List.map_append]
            refine List.mem_append_right _ ?_
            rw [List.map_map]
            exact List.mem_map.mpr ⟨r, hr, hash_set_posted_at r (fmt n)⟩
        · apply List.pairwise_append.mpr
          refine ⟨hnodup, by simp, ?_⟩
          intro e1 he1 e2 he2
          rw [List.mem_singleton] at he2
          subst he2
          intro hs1 _ r1 hr1 r2 hr2 heq
          have h1 := hcov e1 he1 hs1 r1 hr1
          have h2 := sel_hash_not_posted limit st r2 hinv hr2
          rw [heq] at h1
          exact h2 h1
      · have hs' : (tg || blog) = false := by
          simpa using hs
        have hpj : post_jobs parse fmt n tg blog st.posted
            (get_jobs_for_posting limit st.known st.posted) =
            (st.posted,
             [(get_jobs_for_posting limit st.known st.posted, false)]) := by
          simp only [post_jobs, hsel, if_false, hs', Bool.false_eq_true]
        simp only [hpj]
        refine ⟨⟨hinv.1, hinv.2⟩, ?_, ?_⟩
        · intro e2 he2 hsu r hr
          rcases List.mem_append.mp he2 with hm' | hm'
          · exact hcov e2 hm' hsu r hr
          · rw [List.mem_singleton] at hm'
            subst hm'
            cases hsu
        · apply List.pairwise_append.mpr
          refine ⟨hnodup, by simp, ?_⟩
          intro e1 he1 e2 he2
          rw [List.mem_singleton] at he2
          subst he2
          intro _ hs2
          cases hs2
  | delayed tg blog n =>
    intro log0 hcov hnodup
    simp [isDelayedEv] at hnd
  | sweep days n =>
    intro log0 hcov hnodup
    simp only [step]
    refine ⟨⟨?_, hinv.2⟩, ?_, ?_⟩
    · intro j hj
      exact hinv.1 j (cleanup_subset parse n days st.known j hj)
    · rw [List.append_nil]
      exact hcov
    · rw [List.append_nil]
      exact hnodup

/-- Trace-level safety: running any sequence of non-delayed actions within
the 30-day window preserves the invariants and never logs the same
fingerprint in two successful batches. -/
theorem runTrace_no_dup (parse : String → Option Nat) (fmt : Nat → String) :
    ∀ (evs : List Ev) (st : PipeState) (log0 : List (List Job × Bool)),
      (∀ e ∈ evs, isDelayedEv e = false) →
      (∀ e ∈ evs, evNow e ≤ 2592000) →
      (∀ s, ∃ t, parse s = some t ∧ 0 < t) →
      HashInv st → Covered log0 st → NoDupLog log0 →
      NoDupLog (log0 ++ (runTrace parse fmt st evs).2) ∧
      HashInv (runTrace parse fmt st evs).1 ∧
      Covered (log0 ++ (runTrace parse fmt st evs).2)
        (runTrace parse fmt st evs).1 := by
  intro evs
  induction evs with
  | nil =>
    intro st log0 _ _ _ hinv hcov hnodup
    simp only [runTrace, List.append_nil]
    exact ⟨hnodup, hinv, hcov⟩
  | cons e rest ih =>
    intro st log0 hnd hrec hparse hinv hcov hnodup
    obtain ⟨hinv1, hcov1, hnodup1⟩ := step_preserves parse fmt st e
      (hnd e (List.mem_cons_self e rest)) (hrec e (List.mem_cons_self e rest))
      hparse hinv log0 hcov hnodup
    obtain ⟨hn2, hi2, hc2⟩ := ih (step parse fmt st e).1
      (log0 ++ (step parse fmt st e).2)
      (fun e' he' => hnd e' (List.mem_cons_of_mem e he'))
      (fun e' he' => hrec e' (List.mem_cons_of_mem e he'))
      hparse hinv1 hcov1 hnodup1
    simp only [runTrace]
    refine ⟨?_, hi2, ?_⟩
    · rw [← List.append_assoc]
      exact hn2
    · rw [← List.append_assoc]
      exact hc2

/-- Claim C1 is false as stated: in this concrete three-action trace the
scraped record is delivered by the periodic posting pass (both channels
succeed, the fingerprint is marked delivered), and then the delayed
batch-specific posting task — which publishes its *captured* batch verbatim
instead of re-reading the current undelivered backlog — publishes a record
with the very same fingerprint a second time, again successfully: the
fingerprint appears in two distinct successful delivery batches. -/
theorem C1_no_duplicate_delivery_counterexample :
    ((runTrace (fun _ => some 1) (fun _ => "T") {}
      [Ev.scrape [{ title := "Clerk", location := "Delhi", source := "X" }] 0,
       Ev.post true true 30 1,
       Ev.delayed true true 2]).2.map (fun e => e.2) = [true, true]) ∧
    (((runTrace (fun _ => some 1) (fun _ => "T") {}
      [Ev.scrape [{ title := "Clerk", location := "Delhi", source := "X" }] 0,
       Ev.post true true 30 1,
       Ev.delayed true true 2]).2.getD 0 ([], false)).1.map
        generate_job_hash =
      ((runTrace (fun _ => some 1) (fun _ => "T") {}
      [Ev.scrape [{ title := "Clerk", location := "Delhi", source := "X" }] 0,
       Ev.post true true 30 1,
       Ev.delayed true true 2]).2.getD 1 ([], false)).1.map
        generate_job_hash) ∧
    (((runTrace (fun _ => some 1) (fun _ => "T") {}
      [Ev.scrape [{ title := "Clerk", location := "Delhi", source := "X" }] 0,
       Ev.post true true 30 1,
       Ev.delayed true true 2]).2.getD 0 ([], false)).1 ≠ []) ∧
    ((((runTrace (fun _ => some 1) (fun _ => "T") {}
      [Ev.scrape [{ title := "Clerk", location := "Delhi", source := "X" }] 0,
       Ev.post true true 30 1,
       Ev.delayed true true 2]).2.getD 1 ([], false)).1.map
        generate_job_hash).all
      (fun h => ((runTrace (fun _ => some 1) (fun _ => "T") {}
        [Ev.scrape [{ title := "Clerk", location := "Delhi", source := "X" }]
          0,
         Ev.post true true 30 1]).1.posted.map (·.job_hash)).contains h) =
      true) := by
  refine ⟨?_, ?_, ?_, ?_⟩
  · decide
  · decide
  · decide
  · decide

/-- Claim C1, amended: as long as every delivery pass is the periodic
selection-based one (no delayed batch-specific task fires) and all actions
happen within the 30-day delivered-retention window with parsable
timestamps, no fingerprint ever appears in two distinct successful delivery
batches, starting from the empty store.  The delayed batch-specific task
does **not** defer to the current delivered-set: it publishes its captured
batch verbatim, so with it an already-delivered fingerprint can be
published again (see the counterexample). -/
theorem C1_no_duplicate_delivery_amended (parse : String → Option Nat)
    (fmt : Nat → String) (evs : List Ev)
    (hnd : ∀ e ∈ evs, isDelayedEv e = false)
    (hrec : ∀ e ∈ evs, evNow e ≤ 2592000)
    (hparse : ∀ s, ∃ t, parse s = some t ∧ 0 < t) :
    NoDupLog (runTrace parse fmt {} evs).2 := by
  have h := runTrace_no_dup parse fmt evs {} [] hnd hrec hparse
    ⟨fun j hj => absurd hj (List.not_mem_nil j),
     fun j hj => absurd hj (List.not_mem_nil j)⟩
    (fun e2 he2 => absurd he2 (List.not_mem_nil e2)) List.Pairwise.nil
  simpa using h.1

/-- Witness for the amended C1: a scrape followed by two periodic posting
passes never double-delivers. -/
theorem C1_no_duplicate_delivery_amended_witness :
    NoDupLog (runTrace (fun _ => some 1) (fun _ => "T") {}
      [Ev.scrape [{ title := "Clerk", location := "Delhi", source := "X" }] 0,
       Ev.post true true 30 1, Ev.post true true 30 2]).2 :=
  C1_no_duplicate_delivery_amended (fun _ => some 1) (fun _ => "T") _
    (by decide) (by decide) (fun _ => ⟨1, rfl, Nat.one_pos⟩)
